import Mathlib

/-!
# Verification of the frago core (port allocation, Caddyfile provisioning, process supervision)

Shallow embedding of the Go sources of `devmarvs/frago`:

* `internal/caddy/caddy.go`  — `EnsureCaddyfile`, `parseAddressPort`, `formatAddress`
* `internal/runner/runner.go` — `Manager` (`Start`/`Stop`/`recordExit`/`cleanup`/`UsedPorts`)
* `internal/runner/versions.go` (LogBuffer half) — `LogBuffer.Write` / `LogBuffer.Tail`
* `internal/port/port.go` — `IsPortFree` probes the OS; it is modelled as an
  oracle parameter `osFree : Int → Bool` throughout.

Strings are modelled as `List Char` (`Str`); every Go `strings.*` helper used by
the code is re-implemented on that representation so that all definitions are
executable and lemma-friendly.  The filesystem effects of `EnsureCaddyfile`
(the `Caddyfile` of the project and its `.bak` sibling) are modelled by the record
`FS`; `filepath.Join` is modelled as join with `"/"`.  Go `int` is modelled as
`Int` (overflow is irrelevant at the sizes involved), `error` results as
explicit sum types.
-/

/-- Go strings, modelled as lists of characters. -/
abbrev Str := List Char

namespace GoStr

/-- The ASCII part of the Go `unicode.IsSpace` (all whitespace that occurs in the
modelled inputs): space, tab, newline, vertical tab, form feed, carriage return. -/
def isSpace (c : Char) : Bool :=
  c = ' ' || c = '\t' || c = '\n' || c = '\x0b' || c = '\x0c' || c = '\r'

/-- Go `strings.TrimSpace` (ASCII whitespace). -/
def trimSpace (s : Str) : Str :=
  ((s.dropWhile isSpace).reverse.dropWhile isSpace).reverse

/-- Go `strings.TrimLeft(s, " \t")`; used to compute the indentation of a line. -/
def trimLeftWs (s : Str) : Str :=
  s.dropWhile (fun c => c = ' ' || c = '\t')

/-- The leading run of spaces/tabs of a line (`line[:len(line)-len(TrimLeft(line," \t"))]`). -/
def leadWs (s : Str) : Str :=
  s.takeWhile (fun c => c = ' ' || c = '\t')

/-- Go `strings.Split(s, "\n")`. -/
def splitNl : Str → List Str
  | [] => [[]]
  | c :: rest =>
    if c = '\n' then [] :: splitNl rest
    else
      match splitNl rest with
      | [] => [[c]]
      | h :: t => (c :: h) :: t

/-- Go `strings.Join(lines, "\n")`. -/
def joinNl (l : List Str) : Str := (l.intersperse ['\n']).flatten

/-- Go `strings.Join(fields, " ")`. -/
def joinSp (l : List Str) : Str := (l.intersperse [' ']).flatten

/-- Go `strings.HasSuffix(s, "\n")`. -/
def hasSuffixNl (s : Str) : Bool := s.getLast? = some '\n'

/-- Go `strings.ReplaceAll(s, "\r\n", "\n")` (left-to-right, non-overlapping). -/
def replaceCrlf : Str → Str
  | [] => []
  | '\r' :: '\n' :: rest => '\n' :: replaceCrlf rest
  | c :: rest => c :: replaceCrlf rest

/-- Go `strings.Fields` (split around runs of ASCII whitespace); `acc` is the
current in-progress field, reversed. -/
def fieldsAux : Str → Str → List Str
  | [], acc => if acc.isEmpty then [] else [acc.reverse]
  | c :: rest, acc =>
    if isSpace c then
      if acc.isEmpty then fieldsAux rest []
      else acc.reverse :: fieldsAux rest []
    else fieldsAux rest (c :: acc)

/-- Go `strings.Fields(s)`. -/
def fields (s : Str) : List Str := fieldsAux s []

/-- Go `strings.Index(s, "{")` for a single-character pattern: index of the
first occurrence, `none` when absent (Go returns -1). -/
def indexOfChar (c : Char) (s : Str) : Option Nat :=
  s.findIdx? (fun x => x = c)

/-- Go `strings.LastIndex(s, p)` for a single-character pattern `p`. -/
def lastIndexOfCharAux (c : Char) : Nat → Option Nat → Str → Option Nat
  | _, best, [] => best
  | i, best, x :: rest =>
    lastIndexOfCharAux c (i + 1) (if x = c then some i else best) rest

def lastIndexOfChar (c : Char) (s : Str) : Option Nat :=
  lastIndexOfCharAux c 0 none s

/-- Go `strings.LastIndex(s, p)` for a two-character pattern (used for `"]:"`). -/
def lastIndexOfPairAux (a b : Char) : Nat → Option Nat → Str → Option Nat
  | _, best, [] => best
  | _, best, [_] => best
  | i, best, x :: y :: rest =>
    lastIndexOfPairAux a b (i + 1) (if x = a && y = b then some i else best) (y :: rest)

def lastIndexOfPair (a b : Char) (s : Str) : Option Nat :=
  lastIndexOfPairAux a b 0 none s

/-- Decimal digit test used by Go `strconv.Atoi`. -/
def isGoDigit (c : Char) : Bool := '0' ≤ c && c ≤ '9'

/-- Numeric value of the digit list, most significant first. -/
def digitsVal (ds : Str) : Nat :=
  ds.foldl (fun a c => a * 10 + (c.toNat - 48)) 0

/-- Go `strconv.Atoi` (sign handling as in Go; overflow is not modelled — the
ports the program handles are far below the `int64` bound). -/
def atoi? (s : Str) : Option Int :=
  match s with
  | [] => none
  | c :: rest =>
    let signed : Bool × Str :=
      if c = '-' then (true, rest) else if c = '+' then (false, rest) else (false, s)
    if signed.2.isEmpty || !(signed.2.all isGoDigit) then none
    else if signed.1 then some (-(digitsVal signed.2 : Int))
    else some (digitsVal signed.2 : Int)

/-- Decimal digits of a natural number, most significant first (`fmt.Sprintf("%d", _)`
for non-negative values).  Fuel-structured so that it reduces by `decide`/`rfl`;
`natRepr` supplies sufficient fuel. -/
def natDigitsAux : Nat → Nat → Str
  | 0, _ => []
  | fuel + 1, n =>
    if n < 10 then [Char.ofNat (48 + n)]
    else natDigitsAux fuel (n / 10) ++ [Char.ofNat (48 + n % 10)]

def natRepr (n : Nat) : Str := natDigitsAux (n + 1) n

/-- Go `fmt.Sprintf("%d", i)` for `int`. -/
def intRepr (i : Int) : Str :=
  if i < 0 then '-' :: natRepr (-i).toNat else natRepr i.toNat

end GoStr

/-! ## Log Buffer (`internal/runner/versions.go`, LogBuffer half) -/

open GoStr

/-- Model of `runner.LogBuffer`.  The Go field named by the reserved word for
an incomplete line is called `pending` here; the mutex only guards concurrent
access and has no sequential semantics. -/
structure LogBuffer where
  lines : List Str
  max : Nat
  pending : Str
deriving DecidableEq

/-- Model of `runner.defaultLogMaxLines`. -/
def defaultLogMaxLines : Nat := 1000

/-- Model of `runner.NewLogBuffer` (the `max <= 0` branch cannot arise with
`Nat`; the only caller passes `defaultLogMaxLines`). -/
def newLogBuffer (max : Nat) : LogBuffer :=
  { lines := [], max := if max = 0 then defaultLogMaxLines else max, pending := [] }

/-- Model of `LogBuffer.appendLine`: append and evict the oldest lines past
`max`. -/
def LogBuffer.appendLine (b : LogBuffer) (line : Str) : LogBuffer :=
  let ls := b.lines ++ [line]
  { b with lines := if b.max < ls.length then ls.drop (ls.length - b.max) else ls }

/-- Model of `LogBuffer.Write`.  Returns (`(n, err)`, new buffer) matching the
Go `(int, error)` result; `err` is always `none` in the source. -/
def LogBuffer.write (b : LogBuffer) (p : Str) : (Nat × Option String) × LogBuffer :=
  if p.isEmpty then ((0, none), b)
  else
    let text := b.pending ++ replaceCrlf p
    let b1 : LogBuffer := { b with pending := [] }
    match splitNl text with
    | [] => ((p.length, none), b1)
    | parts@(_ :: _) =>
      let keep : List Str × Str :=
        if hasSuffixNl text then (parts, [])
        else (parts.dropLast, parts.getLastD [])
      let b2 := { b1 with pending := keep.2 }
      ((p.length, none), keep.1.foldl LogBuffer.appendLine b2)

/-- Model of `LogBuffer.Tail` (`n` is a Go `int`, hence `Int` here). -/
def LogBuffer.tail (b : LogBuffer) (n : Int) : List Str :=
  let ls := b.lines ++ (if b.pending.isEmpty then [] else [b.pending])
  if n ≤ 0 || n ≥ (ls.length : Int) then ls
  else ls.drop (ls.length - n.toNat)

/-- Model of `LogBuffer.TailText`. -/
def LogBuffer.tailText (b : LogBuffer) (n : Int) : Str :=
  joinNl (b.tail n)

/-! ## Config Provisioner (`internal/caddy/caddy.go`) -/

namespace Caddy

/-- Model of `caddy.Config`. -/
structure Config where
  Path : String
  Port : Int
  IsNew : Bool
  BackupPath : String
deriving DecidableEq

/-- The error taxonomy of `EnsureCaddyfile`.  `desiredPortUnavailable` is the
constructor that wraps the Go sentinel `ErrDesiredPortUnavailable` (the value
`errors.Is` recognises); the `msg` field carries the surrounding text. -/
inductive CaddyErr where
  | invalidPort (p : Int)
  | desiredPortUnavailable (p : Int) (msg : String)
  | noFreePort (lo hi : Int)
  | couldNotUpdate
  | noPortDefinition
deriving DecidableEq

/-- Whether an error wraps `ErrDesiredPortUnavailable` (Go `errors.Is`). -/
def CaddyErr.isUnavailable : CaddyErr → Bool
  | .desiredPortUnavailable _ _ => true
  | _ => false

/-- The files `EnsureCaddyfile` touches in a project directory: the `Caddyfile`
and its `.bak` sibling (`none` = absent). -/
structure FS where
  caddyfile : Option Str
  backup : Option Str
deriving DecidableEq

/-- Model of `caddy.parseAddressPort`: returns host part and port for the forms
`:PORT`, `[ipv6host]:PORT` and `host:PORT`. -/
def parseAddressPort (addr : Str) : Option (Str × Int) :=
  let addr := trimSpace addr
  if addr.isEmpty then none
  else if [':'].isPrefixOf addr then
    match atoi? (addr.drop 1) with
    | none => none
    | some p => some ([':'], p)
  else if ['['].isPrefixOf addr then
    match lastIndexOfPair ']' ':' addr with
    | none => none
    | some idx =>
      match atoi? (addr.drop (idx + 2)) with
      | none => none
      | some p => some (addr.take (idx + 1), p)
  else
    match lastIndexOfChar ':' addr with
    | none => none
    | some idx =>
      if (addr.take idx).isEmpty then none
      else
        match atoi? (addr.drop (idx + 1)) with
        | none => none
        | some p => some (addr.take idx, p)

/-- Model of `caddy.formatAddress`. -/
def formatAddress (pre : Str) (port : Int) : Str :=
  if pre = [':'] then ':' :: intRepr port
  else pre ++ ':' :: intRepr port

/-- The data recorded by the parse loop of `EnsureCaddyfile` when it finds the
port-bearing address declaration: its line index, the indentation of the line
(`linePrefix` in Go), the trimmed text from the opening brace on
(`lineSuffix`), the whitespace-separated fields before the brace, and the
currently bound port. -/
structure AddrMatch where
  targetLine : Nat
  indent : Str
  lineSuffix : Str
  lineFields : List Str
  currentPort : Int
deriving DecidableEq

/-- The inner `for _, field := range fields` loop: the port of the first field
that parses as an address. -/
def findFieldPort : List Str → Option Int
  | [] => none
  | f :: rest =>
    match parseAddressPort f with
    | some pr => some pr.2
    | none => findFieldPort rest

/-- Tail of one iteration of the parse loop, after `beforeBrace`/`lineSuffix`
have been computed: reject an empty `beforeBrace`, otherwise look for an
address field. -/
def tryAddrLine (i : Nat) (line beforeBrace lineSuffix : Str) : Option AddrMatch :=
  if beforeBrace.isEmpty then none
  else
    match findFieldPort (fields beforeBrace) with
    | some p => some ⟨i, leadWs line, lineSuffix, fields beforeBrace, p⟩
    | none => none

/-- One iteration of the `for i, line := range lines` parse loop: skip
blank/`#`/`//` lines; a line qualifies when it carries an inline `{` or is
immediately followed by a line that trims to `{`. -/
def addrLineOf (i : Nat) (line : Str) (rest : List Str) : Option AddrMatch :=
  let trimmed := trimSpace line
  if trimmed.isEmpty || ['#'].isPrefixOf trimmed || ['/', '/'].isPrefixOf trimmed then
    none
  else
    match indexOfChar '\x7b' trimmed with
    | some bi =>
      tryAddrLine i line (trimSpace (trimmed.take bi)) (trimSpace (trimmed.drop bi))
    | none =>
      match rest with
      | next :: _ => if trimSpace next = ['\x7b'] then tryAddrLine i line trimmed [] else none
      | [] => none

/-- The parse loop of `EnsureCaddyfile`: first qualifying line wins. -/
def findAddrAux : Nat → List Str → Option AddrMatch
  | _, [] => none
  | i, line :: rest =>
    match addrLineOf i line rest with
    | some m => some m
    | none => findAddrAux (i + 1) rest

def findAddressLine (lines : List Str) : Option AddrMatch :=
  findAddrAux 0 lines

/-- The field rewrite of `EnsureCaddyfile`: every field whose parsed port
equals `currentPort` is re-rendered with `newPort` (Go mutates `lineFields`
in place and records whether anything was updated). -/
def updateFields (fs : List Str) (currentPort newPort : Int) : List Str :=
  fs.map fun f =>
    match parseAddressPort f with
    | some pr => if pr.2 = currentPort then formatAddress pr.1 newPort else f
    | none => f

/-- The `updated` flag of that loop. -/
def anyFieldHasPort (fs : List Str) (currentPort : Int) : Bool :=
  fs.any fun f =>
    match parseAddressPort f with
    | some pr => pr.2 = currentPort
    | none => false

/-- Reassembly of the rewritten declaration line:
`linePrefix + strings.Join(fields, " ")` plus, when the brace suffix is
non-empty, `" " + lineSuffix`. -/
def rewriteAddrLine (m : AddrMatch) (newPort : Int) : Str :=
  let nl := m.indent ++ joinSp (updateFields m.lineFields m.currentPort newPort)
  if m.lineSuffix.isEmpty then nl else nl ++ ' ' :: m.lineSuffix

/-- The new file content after the in-place line replacement
(`lines[targetLine] = newLine; strings.Join(lines, "\n")`). -/
def applyRewrite (lines : List Str) (m : AddrMatch) (newPort : Int) : Str :=
  joinNl (lines.set m.targetLine (rewriteAddrLine m newPort))

/-- Membership in the optional `usedPorts` set (`nil` map skips the check). -/
def memUsed (usedPorts : Option (List Int)) (p : Int) : Bool :=
  match usedPorts with
  | some l => p ∈ l
  | none => false

/-- The `findFreePort` closure: linear ascending scan, skipping OS-busy ports
and members of `usedPorts`.  Structured with fuel = number of candidates so
that it reduces computationally; `findFreePort` supplies the exact range size. -/
def findFreePortAux (osFree : Int → Bool) (usedPorts : Option (List Int)) :
    Nat → Int → Option Int
  | 0, _ => none
  | fuel + 1, p =>
    if !osFree p then findFreePortAux osFree usedPorts fuel (p + 1)
    else if memUsed usedPorts p then findFreePortAux osFree usedPorts fuel (p + 1)
    else some p

def findFreePort (osFree : Int → Bool) (usedPorts : Option (List Int))
    (start stop : Int) : Option Int :=
  findFreePortAux osFree usedPorts (if start ≤ stop then (stop - start + 1).toNat else 0) start

/-- The `checkDesiredPort` closure: range check, then OS availability, then
the `usedPorts` set.  `none` = ok. -/
def checkDesiredPort (osFree : Int → Bool) (usedPorts : Option (List Int))
    (p : Int) : Option CaddyErr :=
  if p ≤ 0 || p > 65535 then some (.invalidPort p)
  else if !osFree p then some (.desiredPortUnavailable p "is already in use")
  else if memUsed usedPorts p then
    some (.desiredPortUnavailable p "is already used by another running project")
  else none

/-- The fixed content written for a fresh `Caddyfile`
(`fmt.Sprintf(":%d {\n\troot * .\n\tphp_server\n\tfile_server\n}", p)`). -/
def caddyTemplate (p : Int) : Str :=
  ':' :: intRepr p ++ (" \x7b\n\troot * .\n\tphp_server\n\tfile_server\n\x7d".data)

/-- Model of `caddy.EnsureCaddyfile dir usedPorts desiredPort`, over the
filesystem `fs` and the OS port-probe oracle `osFree`.  `filepath.Join` is
modelled as `"/"`-join.  Write errors are not modelled (writes succeed). -/
def EnsureCaddyfile (dir : String) (fs : FS) (osFree : Int → Bool)
    (usedPorts : Option (List Int)) (desiredPort : Int) :
    Except CaddyErr (Config × FS) :=
  let path := dir ++ "/Caddyfile"
  let hasDesired := desiredPort > 0
  match (if hasDesired then checkDesiredPort osFree usedPorts desiredPort else none) with
  | some e => .error e
  | none =>
    match fs.caddyfile with
    | none =>
      -- Does not exist: find free port and create, avoiding usedPorts
      match (if hasDesired then some desiredPort
             else findFreePort osFree usedPorts 8080 9000) with
      | none => .error (.noFreePort 8080 9000)
      | some p =>
        .ok (⟨path, p, true, ""⟩, { fs with caddyfile := some (caddyTemplate p) })
    | some content =>
      -- Exists: read and parse it
      let lines := splitNl content
      match findAddressLine lines with
      | none => .error .noPortDefinition
      | some m =>
        if hasDesired then
          if m.currentPort = desiredPort then
            .ok (⟨path, m.currentPort, false, ""⟩, fs)
          else if !anyFieldHasPort m.lineFields m.currentPort then
            .error .couldNotUpdate
          else
            .ok (⟨path, desiredPort, false, path ++ ".bak"⟩,
                 ⟨some (applyRewrite lines m desiredPort), some content⟩)
        else
          if osFree m.currentPort && !memUsed usedPorts m.currentPort then
            .ok (⟨path, m.currentPort, false, ""⟩, fs)
          else
            match findFreePort osFree usedPorts 8080 9000 with
            | none => .error (.noFreePort 8080 9000)
            | some newPort =>
              if !anyFieldHasPort m.lineFields m.currentPort then
                .error .couldNotUpdate
              else
                .ok (⟨path, newPort, false, path ++ ".bak"⟩,
                     ⟨some (applyRewrite lines m newPort), some content⟩)

end Caddy

/-! ## Process Supervisor (`internal/runner/runner.go`) -/

namespace Runner

open Caddy

/-- Model of `runner.ExitInfo`.  The `When` timestamp (wall clock) is not
modelled. -/
structure ExitInfo where
  err : String
  failed : Bool
deriving DecidableEq

/-- Model of `runner.Process`, restricted to the fields with sequential semantics
(`Cmd`, `URL`, `StartedAt`, binary/label are an OS handle, a derived string
and wall-clock data). -/
structure Process where
  port : Int
  config : Config
deriving DecidableEq

/-- Go map lookup on an association list. -/
def lookupA {α : Type} (l : List (String × α)) (k : String) : Option α :=
  (l.find? (fun x => x.1 = k)).map (fun x => x.2)

/-- Go map `delete` on an association list. -/
def removeA {α : Type} (l : List (String × α)) (k : String) : List (String × α) :=
  l.filter (fun x => x.1 ≠ k)

/-- Go map insert/update on an association list. -/
def insertA {α : Type} (l : List (String × α)) (k : String) (v : α) :
    List (String × α) :=
  (k, v) :: removeA l k

/-- Model of `runner.Manager`: the four lock-protected tables (the lock has no
sequential semantics).  `stopReq : map[string]bool` is a set of keys, since
the code only ever stores `true`. -/
structure MState where
  processes : List (String × Process)
  logs : List (String × LogBuffer)
  exitInfo : List (String × ExitInfo)
  stopReq : List String
deriving DecidableEq

/-- Model of `runner.NewManager()`. -/
def newManager : MState := ⟨[], [], [], []⟩

/-- Model of `Manager.getOrCreateLogBufferLocked`. -/
def getOrCreateLogBuffer (s : MState) : String → List (String × LogBuffer) :=
  fun dir =>
    match lookupA s.logs dir with
    | some _ => s.logs
    | none => insertA s.logs dir (newLogBuffer defaultLogMaxLines)

/-- Model of `Manager.Start dir config _ _`, with the `cmd.Start()` outcome
as the oracle `spawnOk` (binary resolution, stream wiring and the spawned
watcher goroutine live outside the table state).  Returns the Go `error` result
together with the post-call state. -/
def start (s : MState) (dir : String) (config : Config) (spawnOk : Bool) :
    Except String Unit × MState :=
  if (lookupA s.processes dir).isSome then
    (.error ("process already running for directory: " ++ dir), s)
  else
    let s1 : MState :=
      { s with exitInfo := removeA s.exitInfo dir,
               stopReq := s.stopReq.filter (fun k => k ≠ dir),
               logs := getOrCreateLogBuffer s dir }
    if spawnOk then
      (.ok (), { s1 with processes := insertA s1.processes dir ⟨config.Port, config⟩ })
    else
      (.error "spawn failed", s1)

/-- Model of `Manager.recordExit id err` (`err = none` models a `nil` error from
`Cmd.Wait`). -/
def recordExit (s : MState) (id : String) (exitErr : Option String) : MState :=
  let stopRequested := s.stopReq.contains id
  let stopReq' := if stopRequested then s.stopReq.filter (fun k => k ≠ id) else s.stopReq
  let msg := match exitErr with | some e => e | none => ""
  { s with stopReq := stopReq',
           exitInfo := insertA s.exitInfo id ⟨msg, exitErr.isSome && !stopRequested⟩ }

/-- Model of `Manager.cleanup id`: removes the table entry.  The file-system side
(delete a fresh `Caddyfile`, or restore the `.bak`) acts outside the table
state and is not needed by the claims. -/
def cleanup (s : MState) (id : String) : MState :=
  { s with processes := removeA s.processes id }

/-- Model of `Manager.Stop dir`, with the `proc.Cmd.Process.Kill()` outcome
as the oracle `killErr` (`none` = delivered).  Sets the pending-stop flag
under the lock, unlocks, kills; on kill failure re-locks and deletes the
flag. -/
def stop (s : MState) (dir : String) (killErr : Option String) :
    Except String Unit × MState :=
  match lookupA s.processes dir with
  | none => (.error ("no process running for directory: " ++ dir), s)
  | some _ =>
    let s1 : MState :=
      { s with stopReq := if s.stopReq.contains dir then s.stopReq else dir :: s.stopReq }
    match killErr with
    | some e => (.error e, { s1 with stopReq := s1.stopReq.filter (fun k => k ≠ dir) })
    | none => (.ok (), s1)

/-- Model of `Manager.UsedPorts` (as a list; the claims use it through
membership). -/
def usedPorts (s : MState) : List Int :=
  s.processes.map (fun x => x.2.port)

/-- Model of `Manager.LastExit`. -/
def lastExit (s : MState) (dir : String) : Option ExitInfo :=
  lookupA s.exitInfo dir

end Runner

/-! ## Step relation of the Supervisor

The claims about the Supervisor quantify over "any sequence of Start, Stop,
and watcher exit/cleanup steps".  `MStep` is that step relation: each
constructor applies one table-mutating operation of `runner.Manager`.  In the
`startStep` case the spawned config is one produced by `EnsureCaddyfile` from
the `UsedPorts` snapshot of the manager, exactly as the control flow in
`server.New` / `main.go` wires it. -/

namespace Runner

open Caddy

inductive MStep : MState → MState → Prop where
  | startStep (s : MState) (dir : String) (cfg : Config) (spawnOk : Bool)
      (fs fs' : FS) (osFree : Int → Bool) (dp : Int)
      (hens : EnsureCaddyfile dir fs osFree (some (usedPorts s)) dp = .ok (cfg, fs')) :
      MStep s (start s dir cfg spawnOk).2
  | stopStep (s : MState) (dir : String) (killErr : Option String) :
      MStep s (stop s dir killErr).2
  | exitStep (s : MState) (id : String) (exitErr : Option String) :
      MStep s (recordExit s id exitErr)
  | cleanupStep (s : MState) (id : String) :
      MStep s (cleanup s id)

/-- States of the Supervisor reachable from `NewManager()`. -/
inductive Reachable : MState → Prop where
  | init : Reachable newManager
  | step {s t : MState} : Reachable s → MStep s t → Reachable t

end Runner

/-! ## Spec-side predicates used to state the claims -/

namespace Caddy

/-- Spec-side reading (from the words of the spec, for comparison with the code):
"first free port in a default range (8080–9000) excluding `claimedPorts`" —
`p` is in range, OS-free, unclaimed, and least such. -/
def specFirstFreePort (osFree : Int → Bool) (used : List Int) (lo hi p : Int) : Prop :=
  lo ≤ p ∧ p ≤ hi ∧ osFree p = true ∧ p ∉ used ∧
  ∀ q, lo ≤ q → q < p → ¬(osFree q = true ∧ q ∉ used)

/-- Erase all decimal digits.  If two strings are byte-for-byte identical
except for the digits of one replaced port token, their digit-erasures are
equal; this is the necessary condition used to refute that reading. -/
def stripDigits (s : Str) : Str := s.filter (fun c => !isGoDigit c)

/-- The text between the first `{` and the last `}` of a file — the
"body" of the single declaration block written for a fresh Caddyfile. -/
def braceBody (s : Str) : Str :=
  match indexOfChar '\x7b' s, lastIndexOfChar '\x7d' s with
  | some i, some j => (s.take j).drop (i + 1)
  | _, _ => []

end Caddy

/-! # Theorems -/

/-! ## C10: `LogBuffer.Write` reports full consumption and never errors -/

/-- C10: (confirmed).  For every byte chunk `p`, `LogBuffer.Write(p)`
returns `(len(p), nil)`: it reports full consumption and never returns an
error, so log capture can never fail or short-write for the subprocess output
writers feeding it. -/
theorem C10_write_consumes_all (b : LogBuffer) (p : Str) :
    (b.write p).1 = (p.length, none) := by
  unfold LogBuffer.write
  by_cases hp : p.isEmpty
  · simp [hp, List.isEmpty_iff.mp hp]
  · simp only [Bool.not_eq_true] at hp
    rw [if_neg (by simp [hp])]
    cases hsp : splitNl (b.pending ++ replaceCrlf p) <;> simp [hsp]

/-! ## C3: feeding "a\nb\nc" then "d" and tailing all -/

/-- C3 counterexample:  The claim says tailing all entries after writing
`"a\nb\nc"` then `"d"` yields `["a","b","c","d"]`.  It does not: `"c"` is an
unterminated partial line, so the second write concatenates onto it and the
buffer holds `["a","b"]` plus the partial `"cd"`. -/
theorem C3_counterexample :
    (((newLogBuffer defaultLogMaxLines).write ("a\nb\nc".data)).2.write ("d".data)).2.tail 0 ≠
      ["a".data, "b".data, "c".data, "d".data] := by decide

/-- C3: (corrected).  Starting from an empty Log Buffer, writing the chunk
`"a\nb\nc"` and then the chunk `"d"` with no trailing line break, then tailing
all entries (`n ≤ 0` or `n ≥` available count, here 3), yields exactly the
three entries `["a","b","cd"]` — the complete lines `"a"`, `"b"` and the
partial line `"cd"`, the second chunk having been concatenated onto the
buffered partial `"c"`. -/
theorem LogBuffer_tail_all (b : LogBuffer) (n : Int)
    (h : n ≤ 0 ∨ ((b.lines ++ if b.pending.isEmpty then [] else [b.pending]).length : Int) ≤ n) :
    b.tail n = b.lines ++ if b.pending.isEmpty then [] else [b.pending] := by
  have hc : (n ≤ 0 || n ≥ ((b.lines ++ if b.pending.isEmpty then [] else [b.pending]).length : Int)) = true := by
    rcases h with h | h
    · rw [decide_eq_true h, Bool.true_or]
    · rw [decide_eq_true (show n ≥ _ from h), Bool.or_true]
  simp only [LogBuffer.tail]
  rw [if_pos hc]

theorem C3_tail_all (n : Int) (h : n ≤ 0 ∨ 3 ≤ n) :
    (((newLogBuffer defaultLogMaxLines).write ("a\nb\nc".data)).2.write ("d".data)).2.tail n =
      ["a".data, "b".data, "cd".data] := by
  have hb : (((newLogBuffer defaultLogMaxLines).write ("a\nb\nc".data)).2.write ("d".data)).2 =
      ⟨["a".data, "b".data], defaultLogMaxLines, "cd".data⟩ := by decide
  rw [hb, LogBuffer_tail_all]
  · decide
  · rcases h with h | h
    · exact Or.inl h
    · refine Or.inr ?_
      have hl : ((["a".data, "b".data] ++
          if (("cd".data : Str)).isEmpty then [] else ["cd".data]).length) = 3 := by decide
      rw [hl]
      exact_mod_cast h

/-- C3 witness: at `n = 0`. -/
theorem C3_witness :
    ((0 : Int) ≤ 0 ∨ 3 ≤ (0 : Int)) ∧
    (((newLogBuffer defaultLogMaxLines).write ("a\nb\nc".data)).2.write ("d".data)).2.tail 0 =
      ["a".data, "b".data, "cd".data] :=
  ⟨Or.inl (by decide), C3_tail_all 0 (Or.inl (by decide))⟩

/-! ## C4: `recordExit` classification -/

/-- C4: (confirmed).  For every process exit observed by a watcher, the
ExitRecord written for that project path has its `failed` flag true exactly
when the exit error is non-nil and no pending-stop flag was set for that
path, and after the record is written the pending-stop flag for that path is
clear. -/
theorem C4_recordExit (s : Runner.MState) (id : String) (exitErr : Option String) :
    Runner.lookupA (Runner.recordExit s id exitErr).exitInfo id =
      some ⟨(match exitErr with | some e => e | none => ""),
            exitErr.isSome && !s.stopReq.contains id⟩ ∧
    (Runner.recordExit s id exitErr).stopReq.contains id = false := by
  constructor
  · simp [Runner.recordExit, Runner.lookupA, Runner.insertA, List.find?]
  · by_cases hc : s.stopReq.contains id
    · simp only [Runner.recordExit, hc, if_pos]
      simp [List.contains_eq_any_beq, List.any_filter]
    · have hm : id ∉ s.stopReq := by simpa using hc
      simp [Runner.recordExit, hm]

/-! ## C5: desired-port-unavailable marker -/

open Caddy in
/-- C5 counterexample:  The claim quantifies over every `desiredPort > 0`
that is not OS-free or claimed.  For `desiredPort = 70000` (out of the
`[1,65535]` range) with the OS reporting it busy and the port claimed, the
call fails with the *invalid port* validation error, which does not carry the
desired-port-unavailable marker. -/
theorem C5_counterexample :
    (70000 : Int) > 0 ∧
    ((fun _ : Int => false) (70000 : Int) = false ∨ (70000 : Int) ∈ [(70000 : Int)]) ∧
    EnsureCaddyfile "d" ⟨none, none⟩ (fun _ => false) (some [70000]) 70000 =
      .error (.invalidPort 70000) ∧
    (CaddyErr.invalidPort 70000).isUnavailable = false := by
  exact ⟨by decide, Or.inl rfl, rfl, by decide⟩

open Caddy in
/-- C5: (corrected: the port must also lie in the validated range
`[1, 65535]`; below/above that range the distinct invalid-port validation
error fires first).  For every desired port in `[1, 65535]` that is either
not OS-free or is a member of `claimedPorts`, `EnsureCaddyfile` fails and the
returned error carries the distinguishable desired-port-unavailable marker;
in particular, membership in `claimedPorts` alone triggers this error even
when the OS reports the port free. -/
theorem C5_desired_port_unavailable (dir : String) (fs : FS) (osFree : Int → Bool)
    (used : List Int) (p : Int) (h1 : 1 ≤ p) (h2 : p ≤ 65535)
    (h3 : osFree p = false ∨ p ∈ used) :
    ∃ msg, EnsureCaddyfile dir fs osFree (some used) p =
      .error (.desiredPortUnavailable p msg) ∧
      (CaddyErr.desiredPortUnavailable p msg).isUnavailable = true := by
  have hrange : ¬(p ≤ 0 || p > 65535) = true := by simp; omega
  have hd : p > 0 := by omega
  have hchk : ∃ msg, checkDesiredPort osFree (some used) p =
      some (.desiredPortUnavailable p msg) := by
    unfold checkDesiredPort
    rw [if_neg hrange]
    rcases h3 with h3 | h3
    · exact ⟨"is already in use", by rw [if_pos (by simp [h3])]⟩
    · by_cases hf : osFree p
      · refine ⟨"is already used by another running project", ?_⟩
        rw [if_neg (by simp [hf]), if_pos (by simp [memUsed, h3])]
      · exact ⟨"is already in use", by rw [if_pos (by simp [hf])]⟩
  obtain ⟨msg, hmsg⟩ := hchk
  refine ⟨msg, ?_, rfl⟩
  simp only [EnsureCaddyfile]
  rw [if_pos hd, hmsg]

open Caddy in
/-- C5 witness:: a port inside the range that the OS reports free but a
sibling active process has claimed. -/
theorem C5_witness :
    (1 : Int) ≤ 8080 ∧ (8080 : Int) ≤ 65535 ∧
    ((fun _ : Int => true) (8080 : Int) = false ∨ (8080 : Int) ∈ [(8080 : Int)]) ∧
    ∃ msg, EnsureCaddyfile "d" ⟨none, none⟩ (fun _ => true) (some [8080]) 8080 =
      .error (.desiredPortUnavailable 8080 msg) ∧
      (CaddyErr.desiredPortUnavailable 8080 msg).isUnavailable = true :=
  ⟨by decide, by decide, Or.inr (by decide),
    C5_desired_port_unavailable "d" ⟨none, none⟩ (fun _ => true) [8080] 8080
      (by decide) (by decide) (Or.inr (by decide))⟩

/-! ## C7: Stop with signal-delivery failure -/

open Runner in
/-- C7 counterexample:  The claim says a failed `Stop` leaves the
tables of the manager as they were before the call.  When the pending-stop flag
for the directory was already set before the call (a prior successful `Stop`
whose process has not yet exited), the failed `Stop` deletes that flag, so
the tables are *not* as before. -/
theorem C7_counterexample :
    (Runner.stop
        ⟨[("d", ⟨8080, ⟨"d/Caddyfile", 8080, true, ""⟩⟩)], [], [], ["d"]⟩
        "d" (some "kill failed")).2 ≠
      ⟨[("d", ⟨8080, ⟨"d/Caddyfile", 8080, true, ""⟩⟩)], [], [], ["d"]⟩ := by
  decide

open Runner in
/-- C7: (corrected: the pending-stop flag ends up *clear*, which restores
its prior value only when it was not already set before the call).  If `Stop`
finds an active entry for the directory but signal delivery fails, `Stop`
returns the failure; the processes, logs and exit tables are exactly as
before the call (the active entry remains, so the eventual exit is
classified as a failure rather than a requested stop), and the pending-stop
flag for the directory is clear — in particular, when it was not set before
the call, the whole state equals the pre-call state. -/
theorem C7_stop_kill_failure (s : Runner.MState) (dir : String) (e : String)
    (h : (Runner.lookupA s.processes dir).isSome = true) :
    Runner.stop s dir (some e) =
      (.error e,
        { s with stopReq := s.stopReq.filter (fun k => k ≠ dir) }) ∧
    ((Runner.stop s dir (some e)).2.stopReq.contains dir = false) ∧
    (s.stopReq.contains dir = false → (Runner.stop s dir (some e)).2 = s) := by
  obtain ⟨proc, hp⟩ : ∃ p, Runner.lookupA s.processes dir = some p := by
    cases hl : Runner.lookupA s.processes dir with
    | none => rw [hl] at h; simp at h
    | some p => exact ⟨p, rfl⟩
  have hstep : Runner.stop s dir (some e) =
      (.error e, { s with stopReq := s.stopReq.filter (fun k => k ≠ dir) }) := by
    unfold Runner.stop
    rw [hp]
    by_cases hc : s.stopReq.contains dir
    · have hm : dir ∈ s.stopReq := by simpa using hc
      simp [hm]
    · have hm : dir ∉ s.stopReq := by simpa using hc
      simp only [hc, Bool.false_eq_true, if_neg, not_false_eq_true]
      simp [List.filter_cons]
  refine ⟨hstep, ?_, ?_⟩
  · rw [hstep]
    simp [List.contains_eq_any_beq, List.any_filter]
  · intro hc
    rw [hstep]
    have hm : dir ∉ s.stopReq := by simpa using hc
    have hfil : s.stopReq.filter (fun k => k ≠ dir) = s.stopReq :=
      List.filter_eq_self.mpr (fun a ha => by
        simp only [ne_eq, decide_eq_true_eq]
        exact fun h' => hm (h' ▸ ha))
    rw [hfil]

open Runner in
/-- C7 witness:: one active entry, no prior flag, kill failure. -/
theorem C7_witness :
    (Runner.lookupA
        ([("d", ⟨8080, ⟨"d/Caddyfile", 8080, true, ""⟩⟩)] :
          List (String × Runner.Process)) "d").isSome = true ∧
    (Runner.stop ⟨[("d", ⟨8080, ⟨"d/Caddyfile", 8080, true, ""⟩⟩)], [], [], []⟩
        "d" (some "boom")).2 =
      ⟨[("d", ⟨8080, ⟨"d/Caddyfile", 8080, true, ""⟩⟩)], [], [], []⟩ :=
  ⟨by decide,
    (C7_stop_kill_failure ⟨[("d", ⟨8080, ⟨"d/Caddyfile", 8080, true, ""⟩⟩)], [], [], []⟩
        "d" "boom" (by decide)).2.2 (by decide)⟩

/-! ## C8: no-op when the file already binds the desired port -/

open Caddy in
/-- C8 counterexample:  The claim says every existing file already
binding the desired port makes `EnsureCaddyfile` a no-op.  But the
desired-port availability check runs first: with the OS reporting the port
busy, the call fails instead of returning the existing config. -/
theorem C8_counterexample :
    ((findAddressLine (splitNl (":8080 \x7b\n\x7d".data))).map AddrMatch.currentPort =
      some 8080) ∧
    EnsureCaddyfile "d" ⟨some (":8080 \x7b\n\x7d".data), none⟩ (fun _ => false) (some []) 8080 =
      .error (.desiredPortUnavailable 8080 "is already in use") := by
  exact ⟨rfl, rfl⟩

open Caddy in
/-- C8: (corrected: the desired port must additionally pass the upfront
availability validation — in range, OS-free, not claimed — since that check
runs before the file is consulted).  For every existing config file whose
found address declaration already binds exactly the given desired port
(`> 0`), provided that port passes the availability check, `EnsureCaddyfile`
is a no-op: it writes neither the file nor a backup, and returns the
existing path and current port with freshly-created `false` and an empty
backup path. -/
theorem C8_noop_on_equal_port (dir : String) (fs : FS) (osFree : Int → Bool)
    (used : List Int) (dp : Int) (content : Str) (m : AddrMatch)
    (hfs : fs.caddyfile = some content)
    (hm : findAddressLine (splitNl content) = some m)
    (hport : m.currentPort = dp)
    (hdp : 0 < dp) (hr : dp ≤ 65535) (hf : osFree dp = true) (hu : dp ∉ used) :
    EnsureCaddyfile dir fs osFree (some used) dp =
      .ok (⟨dir ++ "/Caddyfile", dp, false, ""⟩, fs) := by
  have hchk : checkDesiredPort osFree (some used) dp = none := by
    unfold checkDesiredPort
    rw [if_neg (by simp; omega), if_neg (by simp [hf])]
    simp [memUsed, hu]
  simp only [EnsureCaddyfile]
  rw [if_pos hdp, hchk, hfs]
  dsimp only
  rw [hm]
  dsimp only
  rw [if_pos hdp, if_pos hport, hport]

open Caddy in
/-- C8 witness:: existing file binding the free, unclaimed desired port. -/
theorem C8_witness :
    EnsureCaddyfile "d" ⟨some (":8080 \x7b\n\x7d".data), none⟩ (fun _ => true) (some []) 8080 =
      .ok (⟨"d/Caddyfile", 8080, false, ""⟩, ⟨some (":8080 \x7b\n\x7d".data), none⟩) :=
  C8_noop_on_equal_port "d" ⟨some (":8080 \x7b\n\x7d".data), none⟩ (fun _ => true) [] 8080
    (":8080 \x7b\n\x7d".data) ⟨0, [], ['\x7b'], [[':', '8', '0', '8', '0']], 8080⟩
    rfl rfl rfl (by decide) (by decide) rfl (by decide)

/-! ## Port-allocation lemmas -/

namespace Caddy

/-- Soundness of the `findFreePort` scan: a returned port is OS-free,
unclaimed, inside the scanned window, and least such. -/
theorem findFreePortAux_some (osFree : Int → Bool) (used : List Int) :
    ∀ (fuel : Nat) (start p : Int),
      findFreePortAux osFree (some used) fuel start = some p →
      osFree p = true ∧ p ∉ used ∧ start ≤ p ∧ p < start + fuel ∧
        ∀ q, start ≤ q → q < p → ¬(osFree q = true ∧ q ∉ used) := by
  intro fuel
  induction fuel with
  | zero => intro start p h; simp [findFreePortAux] at h
  | succ n ih =>
    intro start p h
    unfold findFreePortAux at h
    by_cases hf : osFree start
    · simp only [hf, Bool.not_true, Bool.false_eq_true, if_neg, not_false_eq_true] at h
      by_cases hu : memUsed (some used) start
      · rw [if_pos hu] at h
        obtain ⟨h1, h2, h3, h4, h5⟩ := ih (start + 1) p h
        have hus : start ∈ used := by simpa [memUsed] using hu
        refine ⟨h1, h2, by omega, by omega, ?_⟩
        intro q hq1 hq2
        rcases eq_or_lt_of_le hq1 with hq | hq
        · subst hq; exact fun hc => hc.2 hus
        · exact h5 q (by omega) hq2
      · rw [if_neg hu] at h
        obtain rfl : start = p := by injection h
        exact ⟨hf, by simpa [memUsed] using hu, le_refl _, by omega,
          fun q hq1 hq2 _ => by omega⟩
    · simp only [hf] at h
      obtain ⟨h1, h2, h3, h4, h5⟩ := ih (start + 1) p h
      refine ⟨h1, h2, by omega, by omega, ?_⟩
      intro q hq1 hq2
      rcases eq_or_lt_of_le hq1 with hq | hq
      · subst hq; simp [hf]
      · exact h5 q (by omega) hq2

/-- Completeness of the scan: the least OS-free unclaimed port in the window
is found. -/
theorem findFreePortAux_first (osFree : Int → Bool) (used : List Int) :
    ∀ (fuel : Nat) (start p : Int),
      osFree p = true → p ∉ used → start ≤ p → p < start + fuel →
      (∀ q, start ≤ q → q < p → ¬(osFree q = true ∧ q ∉ used)) →
      findFreePortAux osFree (some used) fuel start = some p := by
  intro fuel
  induction fuel with
  | zero => intro start p _ _ _ h4 _; omega
  | succ n ih =>
    intro start p h1 h2 h3 h4 h5
    unfold findFreePortAux
    rcases eq_or_lt_of_le h3 with hq | hq
    · subst hq
      simp [h1, memUsed, h2]
    · have hbad := h5 start (le_refl _) hq
      by_cases hf : osFree start
      · have hus : start ∈ used := by
          by_contra hcon
          exact hbad ⟨hf, hcon⟩
        simp only [hf, Bool.not_true, Bool.false_eq_true, if_neg, not_false_eq_true]
        rw [if_pos (by simpa [memUsed] using hus)]
        exact ih (start + 1) p h1 h2 (by omega) (by omega)
          (fun q hq1 hq2 => h5 q (by omega) hq2)
      · simp only [hf]
        simp only [Bool.not_false, if_pos]
        exact ih (start + 1) p h1 h2 (by omega) (by omega)
          (fun q hq1 hq2 => h5 q (by omega) hq2)

/-- A passing `checkDesiredPort` means: in range, OS-free, unclaimed. -/
theorem checkDesiredPort_none (osFree : Int → Bool) (used : List Int) (p : Int)
    (h : checkDesiredPort osFree (some used) p = none) :
    0 < p ∧ p ≤ 65535 ∧ osFree p = true ∧ p ∉ used := by
  unfold checkDesiredPort at h
  by_cases h1 : (p ≤ 0 || p > 65535 : Bool)
  · rw [if_pos h1] at h; exact absurd h (by simp)
  · rw [if_neg h1] at h
    by_cases h2 : osFree p
    · rw [if_neg (by simp [h2])] at h
      by_cases h3 : memUsed (some used) p
      · rw [if_pos h3] at h; exact absurd h (by simp)
      · have := by simpa using h1
        refine ⟨?_, ?_, h2, by simpa [memUsed] using h3⟩ <;> omega
    · rw [if_pos (by simp [h2])] at h
      exact absurd h (by simp)

/-- Every successful `EnsureCaddyfile` call returns a port that is not in the
supplied claimed-ports set: every branch either checks the desired port
against the set, re-checks the current port, or allocates via the scan. -/
theorem ensure_port_not_used (dir : String) (fs : FS) (osFree : Int → Bool)
    (used : List Int) (dp : Int) (cfg : Config) (fs' : FS)
    (h : EnsureCaddyfile dir fs osFree (some used) dp = .ok (cfg, fs')) :
    cfg.Port ∉ used := by
  simp only [EnsureCaddyfile] at h
  split at h
  · exact absurd h (by simp)
  · rename_i hchk
    have hdes : dp > 0 → dp ∉ used := by
      intro hd
      rw [if_pos hd] at hchk
      exact (checkDesiredPort_none osFree used dp hchk).2.2.2
    split at h
    · split at h
      · exact absurd h (by simp)
      · rename_i p hp
        injection h with h2
        injection h2 with h3 h4
        by_cases hd : dp > 0
        · rw [if_pos hd] at hp
          injection hp with hp
          rw [← h3]
          simpa [hp] using hdes hd
        · rw [if_neg hd] at hp
          rw [← h3]
          simpa using (findFreePortAux_some osFree used _ _ _ hp).2.1
    · rename_i content hfs
      split at h
      · exact absurd h (by simp)
      · rename_i m hm
        split at h
        · rename_i hd
          split at h
          · rename_i hcp
            injection h with h2
            injection h2 with h3 h4
            rw [← h3]
            simpa [hcp] using hdes hd
          · split at h
            · exact absurd h (by simp)
            · injection h with h2
              injection h2 with h3 h4
              rw [← h3]
              simpa using hdes hd
        · rename_i hd
          split at h
          · rename_i hre
            injection h with h2
            injection h2 with h3 h4
            rw [← h3]
            have hmu : memUsed (some used) m.currentPort = false := by
              simp only [Bool.and_eq_true] at hre
              simpa using hre.2
            simpa [memUsed] using hmu
          · split at h
            · exact absurd h (by simp)
            · rename_i p hp
              split at h
              · exact absurd h (by simp)
              · injection h with h2
                injection h2 with h3 h4
                rw [← h3]
                simpa using (findFreePortAux_some osFree used _ _ _ hp).2.1

end Caddy

/-! ## C2: no two active processes share a port -/

namespace Runner

theorem lookupA_none_removeA {α : Type} (l : List (String × α)) (k : String)
    (h : lookupA l k = none) : removeA l k = l := by
  unfold lookupA at h
  have hf : l.find? (fun x => x.1 = k) = none := by
    cases hfind : l.find? (fun x => x.1 = k) with
    | none => rfl
    | some x => rw [hfind] at h; simp at h
  have hall := List.find?_eq_none.mp hf
  unfold removeA
  refine List.filter_eq_self.mpr (fun a ha => ?_)
  have := hall a ha
  simp only [decide_eq_true_eq] at this
  simpa using this

theorem stop_processes (s : MState) (dir : String) (killErr : Option String) :
    ((stop s dir killErr).2).processes = s.processes := by
  unfold stop
  split
  · rfl
  · cases killErr <;> rfl

end Runner

open Runner in
/-- C2: (confirmed).  At every state of the Supervisor reachable by any
sequence of Start, Stop, and watcher exit/cleanup steps, no two entries in
the active process table have the same port, where each Start is supplied a
config whose port was chosen by `EnsureCaddyfile` given the
`UsedPorts` snapshot of the Supervisor. -/
theorem C2_no_port_collision (s : Runner.MState) (h : Runner.Reachable s) :
    (Runner.usedPorts s).Nodup := by
  induction h with
  | init => simp [Runner.newManager, Runner.usedPorts]
  | step hr hstep ih =>
    cases hstep with
    | startStep dir cfg spawnOk fs fs' osFree dp hens =>
      rename_i sc
      have hnp := Caddy.ensure_port_not_used _ _ _ _ _ _ _ hens
      unfold Runner.start
      by_cases hex : (Runner.lookupA sc.processes dir).isSome
      · rw [if_pos hex]
        exact ih
      · rw [if_neg hex]
        dsimp only
        by_cases hsp : spawnOk
        · rw [if_pos hsp]
          dsimp only
          unfold Runner.usedPorts Runner.insertA
          rw [Runner.lookupA_none_removeA sc.processes dir
            (Option.not_isSome_iff_eq_none.mp (by simpa using hex))]
          simp only [List.map_cons]
          exact List.nodup_cons.mpr ⟨hnp, ih⟩
        · rw [if_neg hsp]
          exact ih
    | stopStep dir killErr =>
      rename_i sc
      have hpp := Runner.stop_processes sc dir killErr
      unfold Runner.usedPorts
      rw [hpp]
      exact ih
    | exitStep id exitErr =>
      exact ih
    | cleanupStep id =>
      unfold Runner.cleanup Runner.usedPorts Runner.removeA
      exact ih.sublist (List.Sublist.map _ (List.filter_sublist _))

open Runner in
/-- C2 witness:: one `Start` step from the fresh manager, whose config
was produced by `EnsureCaddyfile` from the (empty) `UsedPorts` snapshot. -/
theorem C2_witness :
    (Runner.usedPorts
      (Runner.start Runner.newManager "d" ⟨"d/Caddyfile", 8080, true, ""⟩ true).2).Nodup :=
  C2_no_port_collision _
    (Runner.Reachable.step Runner.Reachable.init
      (Runner.MStep.startStep Runner.newManager "d" ⟨"d/Caddyfile", 8080, true, ""⟩ true
        ⟨none, none⟩ ⟨some (Caddy.caddyTemplate 8080), none⟩ (fun _ => true) 8080 rfl))

/-! ## C6: creation of a fresh Caddyfile -/

open Caddy in
/-- C6 counterexample:  The claim says the freshly written file consists
of an address line plus an *empty* body.  The file the code writes carries a
body with three directives (`root * .`, `php_server`, `file_server`): the
text between the braces does not trim to the empty string. -/
theorem C6_counterexample :
    EnsureCaddyfile "d" ⟨none, none⟩ (fun _ => true) (some []) 8080 =
      .ok (⟨"d/Caddyfile", 8080, true, ""⟩, ⟨some (caddyTemplate 8080), none⟩) ∧
    trimSpace (braceBody (caddyTemplate 8080)) ≠ [] := by
  exact ⟨rfl, by decide⟩

open Caddy in
/-- C6: (corrected: the written body is not empty — it contains the fixed
directives `root * .`, `php_server`, `file_server`).  For every project
directory with no existing config file, `EnsureCaddyfile` binds `desiredPort`
when given (and valid/OS-free/unclaimed), else the first free port in the
default range 8080–9000 that is OS-free and not in `claimedPorts`, and
writes the fixed template binding that port (`:PORT` address line, opening
brace, the three directives, closing brace), returning a config marked
freshly created with no backup path; the `.bak` sibling is untouched. -/
theorem C6_create_fresh (dir : String) (fs : FS) (osFree : Int → Bool)
    (used : List Int) (dp p : Int) (hfs : fs.caddyfile = none)
    (hp : if dp > 0 then p = dp ∧ dp ≤ 65535 ∧ osFree dp = true ∧ dp ∉ used
          else specFirstFreePort osFree used 8080 9000 p) :
    EnsureCaddyfile dir fs osFree (some used) dp =
      .ok (⟨dir ++ "/Caddyfile", p, true, ""⟩, ⟨some (caddyTemplate p), fs.backup⟩) := by
  simp only [EnsureCaddyfile]
  by_cases hd : dp > 0
  · rw [if_pos hd] at hp
    obtain ⟨rfl, h2, h3, h4⟩ := hp
    have hchk : checkDesiredPort osFree (some used) p = none := by
      unfold checkDesiredPort
      rw [if_neg (by simp; omega), if_neg (by simp [h3])]
      simp [memUsed, h4]
    rw [if_pos hd, hchk, hfs]
    dsimp only
    rw [if_pos hd]
  · rw [if_neg hd] at hp
    obtain ⟨h1, h2, h3, h4, h5⟩ := hp
    have hff : findFreePort osFree (some used) 8080 9000 = some p := by
      unfold findFreePort
      rw [if_pos (by omega)]
      exact findFreePortAux_first osFree used _ 8080 p h3 h4 h1 (by omega) h5
    rw [if_neg hd, hfs]
    dsimp only
    rw [if_neg hd, hff]

open Caddy in
/-- C6 witness:: desired port given, OS-free and unclaimed. -/
theorem C6_witness :
    ((⟨none, some ("old".data)⟩ : FS).caddyfile = none) ∧
    EnsureCaddyfile "d" ⟨none, some ("old".data)⟩ (fun _ => true) (some [9999]) 8081 =
      .ok (⟨"d/Caddyfile", 8081, true, ""⟩, ⟨some (caddyTemplate 8081), some ("old".data)⟩) :=
  ⟨rfl,
    C6_create_fresh "d" ⟨none, some ("old".data)⟩ (fun _ => true) [9999] 8081 8081 rfl
      (by rw [if_pos (show (8081 : Int) > 0 by decide)]
          exact ⟨rfl, by decide, rfl, by decide⟩)⟩

/-! ## C1: rewrite frame property -/

namespace Caddy

theorem tryAddrLine_target (i : Nat) (line b sfx : Str) (m : AddrMatch)
    (h : tryAddrLine i line b sfx = some m) : m.targetLine = i := by
  unfold tryAddrLine at h
  split at h
  · exact absurd h (by simp)
  · split at h
    · injection h with h
      rw [← h]
    · exact absurd h (by simp)

theorem addrLineOf_target (i : Nat) (line : Str) (rest : List Str) (m : AddrMatch)
    (h : addrLineOf i line rest = some m) : m.targetLine = i := by
  simp only [addrLineOf] at h
  split at h
  · exact absurd h (by simp)
  · split at h
    · exact tryAddrLine_target _ _ _ _ _ h
    · split at h
      · split at h
        · exact tryAddrLine_target _ _ _ _ _ h
        · exact absurd h (by simp)
      · exact absurd h (by simp)

theorem findAddrAux_target_bound (lines : List Str) :
    ∀ (i : Nat) (m : AddrMatch), findAddrAux i lines = some m →
      i ≤ m.targetLine ∧ m.targetLine < i + lines.length := by
  induction lines with
  | nil => intro i m h; simp [findAddrAux] at h
  | cons line rest ih =>
    intro i m h
    unfold findAddrAux at h
    split at h
    · rename_i m' heq
      injection h with h
      subst h
      have := addrLineOf_target _ _ _ _ heq
      simp [this]
    · have := ih (i + 1) m h
      constructor <;> [omega; (simp only [List.length_cons]; omega)]

/-- The found declaration line lies inside the line list of the file. -/
theorem findAddressLine_target_bound (lines : List Str) (m : AddrMatch)
    (h : findAddressLine lines = some m) : m.targetLine < lines.length := by
  have := findAddrAux_target_bound lines 0 m h
  omega

end Caddy

open Caddy in
/-- C1 counterexample:  If the rewritten file were byte-for-byte
identical to the original except for the digits of the replaced port token,
erasing all decimal digits from both files would give equal strings.  For
the original `":8080\t{\n}"` (tab before the brace) rewritten to port 9090,
the written file is `":9090 {\n}"` — the tab was normalized to a single
space — so the digit-erasures differ and the claim fails, even though the
`.bak` equals the original. -/
theorem C1_counterexample :
    EnsureCaddyfile "d" ⟨some (":8080\t\x7b\n\x7d".data), none⟩ (fun _ => true) none 9090 =
      .ok (⟨"d/Caddyfile", 9090, false, "d/Caddyfile.bak"⟩,
           ⟨some (":9090 \x7b\n\x7d".data), some (":8080\t\x7b\n\x7d".data)⟩) ∧
    stripDigits (":9090 \x7b\n\x7d".data) ≠ stripDigits (":8080\t\x7b\n\x7d".data) := by
  exact ⟨rfl, by decide⟩

open Caddy in
/-- C1: (corrected: whitespace inside the matched declaration line is
normalized, so byte-for-byte identity outside the port digits holds only
line-wise).  Whenever `EnsureCaddyfile` rewrites an existing file (it
returns a config with a backup path), the `.bak` content equals the original
byte-for-byte, and the written file is the original line list with exactly
the single matched declaration line replaced — every other line, including a
brace on a following line and lines carrying comments, is byte-identical —
where the replacement line is the original indentation plus the original
whitespace-separated fields with each token bearing the old port re-rendered
at the new port, joined by single spaces, plus the original from-brace
suffix after a single space. -/
theorem C1_rewrite_frame (dir : String) (fs : FS) (osFree : Int → Bool)
    (used : Option (List Int)) (dp : Int) (cfg : Config) (fs' : FS)
    (h : EnsureCaddyfile dir fs osFree used dp = .ok (cfg, fs'))
    (hb : cfg.BackupPath ≠ "") :
    ∃ content m,
      fs.caddyfile = some content ∧
      fs'.backup = some content ∧
      findAddressLine (splitNl content) = some m ∧
      m.targetLine < (splitNl content).length ∧
      fs'.caddyfile = some (joinNl ((splitNl content).set m.targetLine
        (rewriteAddrLine m cfg.Port))) ∧
      ∀ j, j ≠ m.targetLine →
        ((splitNl content).set m.targetLine (rewriteAddrLine m cfg.Port))[j]? =
          (splitNl content)[j]? := by
  simp only [EnsureCaddyfile] at h
  split at h
  · exact absurd h (by simp)
  · split at h
    · split at h
      · exact absurd h (by simp)
      · exfalso
        apply hb
        injection h with h2
        injection h2 with h3 h4
        rw [← h3]
    · rename_i content hfs
      split at h
      · exact absurd h (by simp)
      · rename_i m hm
        refine ⟨content, m, hfs, ?_⟩
        have hbound := findAddressLine_target_bound _ _ hm
        split at h
        · split at h
          · exfalso
            apply hb
            injection h with h2
            injection h2 with h3 h4
            rw [← h3]
          · split at h
            · exact absurd h (by simp)
            · injection h with h2
              injection h2 with h3 h4
              rw [← h4, ← h3]
              refine ⟨rfl, hm, hbound, rfl, ?_⟩
              intro j hj
              exact List.getElem?_set_ne (fun hh => hj hh.symm)
        · split at h
          · exfalso
            apply hb
            injection h with h2
            injection h2 with h3 h4
            rw [← h3]
          · split at h
            · exact absurd h (by simp)
            · split at h
              · exact absurd h (by simp)
              · injection h with h2
                injection h2 with h3 h4
                rw [← h4, ← h3]
                refine ⟨rfl, hm, hbound, rfl, ?_⟩
                intro j hj
                exact List.getElem?_set_ne (fun hh => hj hh.symm)

open Caddy in
/-- C1 witness:: the concrete rewrite of `":8080\t{\n}"` to port 9090. -/
theorem C1_witness :
    ∃ content m,
      (⟨some (":8080\t\x7b\n\x7d".data), none⟩ : FS).caddyfile = some content ∧
      (⟨some (":9090 \x7b\n\x7d".data), some (":8080\t\x7b\n\x7d".data)⟩ : FS).backup =
        some content ∧
      findAddressLine (splitNl content) = some m ∧
      m.targetLine < (splitNl content).length ∧
      (⟨some (":9090 \x7b\n\x7d".data), some (":8080\t\x7b\n\x7d".data)⟩ : FS).caddyfile =
        some (joinNl ((splitNl content).set m.targetLine (rewriteAddrLine m
          (Config.mk "d/Caddyfile" 9090 false "d/Caddyfile.bak").Port))) ∧
      ∀ j, j ≠ m.targetLine →
        ((splitNl content).set m.targetLine (rewriteAddrLine m
          (Config.mk "d/Caddyfile" 9090 false "d/Caddyfile.bak").Port))[j]? =
          (splitNl content)[j]? :=
  C1_rewrite_frame "d" ⟨some (":8080\t\x7b\n\x7d".data), none⟩ (fun _ => true) none 9090
    (Config.mk "d/Caddyfile" 9090 false "d/Caddyfile.bak")
    ⟨some (":9090 \x7b\n\x7d".data), some (":8080\t\x7b\n\x7d".data)⟩
    rfl (by decide)

/-! ## C9: groundwork — decimal rendering, splitting, trimming -/

namespace GoStr

theorem natDigitsAux_mem (fuel : Nat) :
    ∀ (n : Nat), ∀ c ∈ natDigitsAux fuel n,
      c ∈ ['0', '1', '2', '3', '4', '5', '6', '7', '8', '9'] := by
  induction fuel with
  | zero => intro n c hc; simp [natDigitsAux] at hc
  | succ f ih =>
    intro n c hc
    unfold natDigitsAux at hc
    by_cases h10 : n < 10
    · rw [if_pos h10] at hc
      simp only [List.mem_singleton] at hc
      subst hc
      interval_cases n <;> decide
    · rw [if_neg h10] at hc
      rw [List.mem_append] at hc
      rcases hc with hc | hc
      · exact ih _ c hc
      · simp only [List.mem_singleton] at hc
        subst hc
        have hr : n % 10 < 10 := Nat.mod_lt _ (by omega)
        set r := n % 10 with hrdef
        clear_value r
        interval_cases r <;> decide

theorem natRepr_ne_nil (n : Nat) : natRepr n ≠ [] := by
  unfold natRepr natDigitsAux
  by_cases h : n < 10 <;> simp [h]

theorem digit_char_toNat (k : Nat) (h : k < 10) : (Char.ofNat (48 + k)).toNat = 48 + k := by
  interval_cases k <;> decide

theorem natDigitsAux_val (fuel : Nat) :
    ∀ n, n < fuel → digitsVal (natDigitsAux fuel n) = n := by
  induction fuel with
  | zero => intro n hn; omega
  | succ f ih =>
    intro n hn
    unfold natDigitsAux
    by_cases h10 : n < 10
    · rw [if_pos h10]
      have hchar := digit_char_toNat n h10
      simp [digitsVal, hchar]
    · rw [if_neg h10]
      have hval : digitsVal (natDigitsAux f (n / 10) ++ [Char.ofNat (48 + n % 10)]) =
          digitsVal (natDigitsAux f (n / 10)) * 10 + ((Char.ofNat (48 + n % 10)).toNat - 48) := by
        unfold digitsVal
        rw [List.foldl_append]
        simp
      rw [hval, ih (n / 10) (by omega)]
      have h2 : (Char.ofNat (48 + n % 10)).toNat = 48 + n % 10 :=
        digit_char_toNat _ (Nat.mod_lt _ (by omega))
      omega

theorem atoi_natRepr (n : Nat) : atoi? (natRepr n) = some (n : Int) := by
  have hval : digitsVal (natRepr n) = n := natDigitsAux_val (n + 1) n (by omega)
  have hne : natRepr n ≠ [] := natRepr_ne_nil n
  cases hrep : natRepr n with
  | nil => exact absurd hrep hne
  | cons c rest =>
    have hmem' : ∀ x ∈ c :: rest, x ∈ ['0', '1', '2', '3', '4', '5', '6', '7', '8', '9'] := by
      rw [← hrep]
      exact natDigitsAux_mem (n + 1) n
    have hc : c ∈ ['0', '1', '2', '3', '4', '5', '6', '7', '8', '9'] :=
      hmem' c (List.mem_cons_self _ _)
    have hc1 : c ≠ '-' := by fin_cases hc <;> decide
    have hc2 : c ≠ '+' := by fin_cases hc <;> decide
    have hall : (c :: rest).all isGoDigit = true := by
      rw [List.all_eq_true]
      intro x hx
      have hxm := hmem' x hx
      fin_cases hxm <;> decide
    rw [hrep] at hval
    simp only [atoi?]
    rw [if_neg hc1, if_neg hc2]
    simp [hall, hval]

theorem atoi_intRepr_pos (p : Int) (hp : 0 < p) : atoi? (intRepr p) = some p := by
  unfold intRepr
  rw [if_neg (by omega), atoi_natRepr]
  congr 1
  omega

theorem splitNl_ne_nil (s : Str) : splitNl s ≠ [] := by
  induction s with
  | nil => simp [splitNl]
  | cons c rest ih =>
    unfold splitNl
    by_cases hc : c = '\n'
    · simp [hc]
    · rw [if_neg hc]
      cases h : splitNl rest <;> simp

theorem splitNl_append_nl (a b : Str) (h : ('\n' : Char) ∉ a) :
    splitNl (a ++ '\n' :: b) = a :: splitNl b := by
  induction a with
  | nil => simp [splitNl]
  | cons c a' ih =>
    have hc : c ≠ '\n' := fun hh => h (hh ▸ List.mem_cons_self _ _)
    have h' : ('\n' : Char) ∉ a' := fun hh => h (List.mem_cons_of_mem _ hh)
    rw [List.cons_append]
    conv_lhs => rw [splitNl]
    rw [if_neg hc, ih h']

theorem dropWhile_all_neg (p : Char → Bool) (l : Str) (h : ∀ c ∈ l, p c = false) :
    l.dropWhile p = l := by
  cases l with
  | nil => rfl
  | cons c t => rw [List.dropWhile_cons, if_neg (by simp [h c (List.mem_cons_self _ _)])]

theorem trimSpace_no_space (l : Str) (h : ∀ c ∈ l, isSpace c = false) : trimSpace l = l := by
  unfold trimSpace
  rw [dropWhile_all_neg _ _ h,
    dropWhile_all_neg _ _ (fun c hc => h c (by simpa using hc)), List.reverse_reverse]

theorem trimSpace_append_space (s : Str) : trimSpace (s ++ [' ']) = trimSpace s := by
  induction s with
  | nil => decide
  | cons c t ih =>
    by_cases hc : isSpace c
    · show trimSpace (c :: (t ++ [' '])) = trimSpace (c :: t)
      unfold trimSpace
      rw [List.dropWhile_cons, List.dropWhile_cons, if_pos hc, if_pos hc]
      exact ih
    · show trimSpace (c :: (t ++ [' '])) = trimSpace (c :: t)
      unfold trimSpace
      rw [List.dropWhile_cons, List.dropWhile_cons,
        if_neg (by simp [hc]), if_neg (by simp [hc])]
      rw [show (c :: (t ++ [' '])).reverse = ' ' :: (c :: t).reverse by simp]
      rw [List.dropWhile_cons, if_pos (by decide)]

theorem trimSpace_sandwich (a b : Char) (mid : Str)
    (ha : isSpace a = false) (hb : isSpace b = false) :
    trimSpace (a :: (mid ++ [b])) = a :: (mid ++ [b]) := by
  unfold trimSpace
  rw [List.dropWhile_cons, if_neg (by simp [ha])]
  rw [show (a :: (mid ++ [b])).reverse = b :: (mid.reverse ++ [a]) by simp]
  rw [List.dropWhile_cons, if_neg (by simp [hb])]
  simp

theorem fieldsAux_no_space (s : Str) :
    ∀ acc : Str, (∀ c ∈ s, isSpace c = false) → acc.reverse ++ s ≠ [] →
      fieldsAux s acc = [acc.reverse ++ s] := by
  induction s with
  | nil =>
    intro acc _ hne
    unfold fieldsAux
    rw [if_neg (by simpa using hne)]
    simp
  | cons c t ih =>
    intro acc h hne
    unfold fieldsAux
    rw [if_neg (by simp [h c (List.mem_cons_self _ _)])]
    rw [ih (c :: acc) (fun x hx => h x (List.mem_cons_of_mem _ hx)) (by simp)]
    simp

theorem fields_no_space (s : Str) (hne : s ≠ []) (h : ∀ c ∈ s, isSpace c = false) :
    fields s = [s] := by
  unfold fields
  rw [fieldsAux_no_space s [] h (by simpa using hne)]
  simp

theorem findIdx?_append_cons (q : Char → Bool) (a : Str) (c : Char) (b : Str) :
    ∀ i : Nat, (∀ x ∈ a, q x = false) → q c = true →
      List.findIdx? q (a ++ c :: b) i = some (i + a.length) := by
  induction a with
  | nil => intro i _ hc; simp [List.findIdx?_cons, hc]
  | cons x t ih =>
    intro i ha hc
    have hx := ha x (List.mem_cons_self _ _)
    rw [List.cons_append, List.findIdx?_cons, if_neg (by simp [hx])]
    rw [ih (i + 1) (fun y hy => ha y (List.mem_cons_of_mem _ hy)) hc]
    congr 1
    simp
    omega

end GoStr

/-! ## C9: parsing the freshly written template -/

namespace Caddy

theorem digits_no_space (D : Str)
    (hmem : ∀ c ∈ D, c ∈ ['0', '1', '2', '3', '4', '5', '6', '7', '8', '9']) :
    ∀ c ∈ D, isSpace c = false := by
  intro c hc
  have := hmem c hc
  fin_cases this <;> decide

/-- Parsing the file written for a fresh Caddyfile finds the `:PORT` address
declaration on line 0, with an empty indentation, the lone `{` suffix, the
single address field, and the written port. -/
theorem findAddressLine_template (p : Int) (hp : 0 < p) :
    findAddressLine (splitNl (caddyTemplate p)) =
      some ⟨0, [], ['\x7b'], [':' :: intRepr p], p⟩ := by
  have hD : intRepr p = natRepr p.toNat := by
    unfold intRepr
    rw [if_neg (by omega)]
  have hmem : ∀ c ∈ natRepr p.toNat, c ∈ ['0', '1', '2', '3', '4', '5', '6', '7', '8', '9'] :=
    natDigitsAux_mem _ _
  have hDne : natRepr p.toNat ≠ [] := natRepr_ne_nil _
  have hnos : ∀ c ∈ natRepr p.toNat, isSpace c = false := digits_no_space _ hmem
  have hnonl : ('\n' : Char) ∉ natRepr p.toNat := fun hc =>
    absurd (hmem _ hc) (by decide)
  have hnob : ('\x7b' : Char) ∉ natRepr p.toNat := fun hc =>
    absurd (hmem _ hc) (by decide)
  have hlit : (" \x7b\n\troot * .\n\tphp_server\n\tfile_server\n\x7d".data : Str) =
      [' ', '\x7b', '\n'] ++ ("\troot * .\n\tphp_server\n\tfile_server\n\x7d".data : Str) := by
    decide
  have htmp : caddyTemplate p =
      (':' :: (natRepr p.toNat ++ [' ', '\x7b'])) ++
        '\n' :: ("\troot * .\n\tphp_server\n\tfile_server\n\x7d".data : Str) := by
    unfold caddyTemplate
    rw [hD, hlit]
    simp
  rw [htmp, splitNl_append_nl _ _ (by
    intro hmm
    rcases List.mem_cons.mp hmm with hmm | hmm
    · exact absurd hmm (by decide)
    · rcases List.mem_append.mp hmm with hmm | hmm
      · exact hnonl hmm
      · exact absurd hmm (by decide))]
  unfold findAddressLine findAddrAux
  have htrim : trimSpace (':' :: (natRepr p.toNat ++ [' ', '\x7b'])) =
      ':' :: (natRepr p.toNat ++ [' ', '\x7b']) := by
    rw [show natRepr p.toNat ++ [' ', '\x7b'] = (natRepr p.toNat ++ [' ']) ++ ['\x7b'] by simp]
    exact trimSpace_sandwich ':' '\x7b' _ (by decide) (by decide)
  have hidx : indexOfChar '\x7b' (':' :: (natRepr p.toNat ++ [' ', '\x7b'])) =
      some (p.toNat |> natRepr |>.length |>.succ |>.succ) := by
    unfold indexOfChar
    rw [show ':' :: (natRepr p.toNat ++ [' ', '\x7b']) =
      (':' :: (natRepr p.toNat ++ [' '])) ++ '\x7b' ::
        ([] : Str) by simp]
    rw [findIdx?_append_cons _ _ _ _ 0
      (by
        intro x hx
        rcases List.mem_cons.mp hx with hx | hx
        · subst hx; decide
        · rcases List.mem_append.mp hx with hx | hx
          · have := hmem x hx
            fin_cases this <;> decide
          · simp only [List.mem_singleton] at hx
            subst hx; decide)
      (by decide)]
    simp [Nat.succ_eq_add_one]
  have haddr : addrLineOf 0 (':' :: (natRepr p.toNat ++ [' ', '\x7b']))
      (splitNl ("\troot * .\n\tphp_server\n\tfile_server\n\x7d".data : Str)) =
      some ⟨0, [], ['\x7b'], [':' :: intRepr p], p⟩ := by
    simp only [addrLineOf, htrim, hidx]
    rw [if_neg (by simp [List.isPrefixOf])]
    have htake : (':' :: (natRepr p.toNat ++ [' ', '\x7b'])).take
        (p.toNat |> natRepr |>.length |>.succ |>.succ) =
        ':' :: (natRepr p.toNat ++ [' ']) := by
      rw [show ':' :: (natRepr p.toNat ++ [' ', '\x7b']) =
        (':' :: (natRepr p.toNat ++ [' '])) ++ ['\x7b'] by simp]
      rw [show (p.toNat |> natRepr |>.length |>.succ |>.succ) =
        (':' :: (natRepr p.toNat ++ [' '])).length by simp [Nat.succ_eq_add_one]]
      exact List.take_left _ _
    have hdrop : (':' :: (natRepr p.toNat ++ [' ', '\x7b'])).drop
        (p.toNat |> natRepr |>.length |>.succ |>.succ) = ['\x7b'] := by
      rw [show ':' :: (natRepr p.toNat ++ [' ', '\x7b']) =
        (':' :: (natRepr p.toNat ++ [' '])) ++ ['\x7b'] by simp]
      rw [show (p.toNat |> natRepr |>.length |>.succ |>.succ) =
        (':' :: (natRepr p.toNat ++ [' '])).length by simp [Nat.succ_eq_add_one]]
      exact List.drop_left _ _
    rw [htake, hdrop]
    have hbb : trimSpace (':' :: (natRepr p.toNat ++ [' '])) = ':' :: natRepr p.toNat := by
      rw [show ':' :: (natRepr p.toNat ++ [' ']) = (':' :: natRepr p.toNat) ++ [' '] by simp]
      rw [trimSpace_append_space]
      exact trimSpace_no_space _ (by
        intro c hc
        rcases List.mem_cons.mp hc with hc | hc
        · subst hc; decide
        · exact hnos c hc)
    rw [hbb]
    rw [show trimSpace ['\x7b'] = ['\x7b'] from rfl]
    unfold tryAddrLine
    rw [if_neg (by simp)]
    have hfields : fields (':' :: natRepr p.toNat) = [':' :: natRepr p.toNat] :=
      fields_no_space _ (by simp) (by
        intro c hc
        rcases List.mem_cons.mp hc with hc | hc
        · subst hc; decide
        · exact hnos c hc)
    rw [hfields]
    have hparse : parseAddressPort (':' :: natRepr p.toNat) = some ([':'], p) := by
      unfold parseAddressPort
      rw [trimSpace_no_space _ (by
        intro c hc
        rcases List.mem_cons.mp hc with hc | hc
        · subst hc; decide
        · exact hnos c hc)]
      rw [if_neg (by simp), if_pos (by simp [List.isPrefixOf])]
      rw [show (':' :: natRepr p.toNat).drop 1 = natRepr p.toNat from rfl]
      have := atoi_natRepr p.toNat
      rw [this]
      have hcast : ((p.toNat : Nat) : Int) = p := by omega
      rw [hcast]
    unfold findFieldPort
    rw [hparse]
    simp [leadWs, List.takeWhile_cons, hD]
  rw [haddr]

end Caddy

namespace Caddy

/-- Inversion of the fresh-file branch of `EnsureCaddyfile` with no desired
port: the result is the allocated port, template content, `IsNew`, no
backup. -/
theorem ensure_nofile_auto_inv (dir : String) (fs : FS) (osFree : Int → Bool)
    (used : List Int) (cfg : Config) (fs' : FS)
    (hfs : fs.caddyfile = none)
    (h : EnsureCaddyfile dir fs osFree (some used) 0 = .ok (cfg, fs')) :
    ∃ p, cfg = ⟨dir ++ "/Caddyfile", p, true, ""⟩ ∧
      fs' = ⟨some (caddyTemplate p), fs.backup⟩ ∧
      findFreePort osFree (some used) 8080 9000 = some p := by
  have h0 : ¬((0 : Int) > 0) := by omega
  simp only [EnsureCaddyfile] at h
  rw [if_neg h0, hfs] at h
  dsimp only at h
  rw [if_neg h0] at h
  cases hff : findFreePort osFree (some used) 8080 9000 with
  | none => rw [hff] at h; exact absurd h (by simp)
  | some p =>
    rw [hff] at h
    injection h with h2
    injection h2 with h3 h4
    exact ⟨p, h3.symm, h4.symm, rfl⟩

/-- Running `EnsureCaddyfile` with no desired port on a directory whose file
is the freshly written template for a still-free, unclaimed port reuses that
port unchanged. -/
theorem ensure_reuse_template (dir : String) (bak : Option Str) (osFree : Int → Bool)
    (used : List Int) (p : Int) (hp : 0 < p) (hf : osFree p = true) (hu : p ∉ used) :
    EnsureCaddyfile dir ⟨some (caddyTemplate p), bak⟩ osFree (some used) 0 =
      .ok (⟨dir ++ "/Caddyfile", p, false, ""⟩, ⟨some (caddyTemplate p), bak⟩) := by
  have h0 : ¬((0 : Int) > 0) := by omega
  simp only [EnsureCaddyfile]
  rw [if_neg h0]
  dsimp only
  rw [findAddressLine_template p hp]
  dsimp only
  rw [if_neg h0, if_pos (by simp [hf, memUsed, hu])]

end Caddy

open Caddy in
/-- C9: (confirmed).  Calling `EnsureCaddyfile` with no desired port on a
directory with no existing file creates a file containing the assigned port
and reports freshly created; calling it again with no desired port and the
same claimed-ports set (and the same OS port-probe behaviour) returns the
same port with freshly-created `false` and the filesystem untouched
(idempotent reuse). -/
theorem C9_idempotent_reuse (dir : String) (fs : FS) (osFree : Int → Bool)
    (used : List Int) (cfg1 : Config) (fs1 : FS)
    (hfs : fs.caddyfile = none)
    (h1 : EnsureCaddyfile dir fs osFree (some used) 0 = .ok (cfg1, fs1)) :
    cfg1.IsNew = true ∧
    fs1.caddyfile = some (caddyTemplate cfg1.Port) ∧
    EnsureCaddyfile dir fs1 osFree (some used) 0 =
      .ok (⟨dir ++ "/Caddyfile", cfg1.Port, false, ""⟩, fs1) := by
  obtain ⟨p, hc, hf1, hff⟩ := ensure_nofile_auto_inv dir fs osFree used cfg1 fs1 hfs h1
  have hff' : findFreePortAux osFree (some used) ((9000 - 8080 + 1 : Int)).toNat 8080 = some p := by
    unfold findFreePort at hff
    rw [if_pos (by omega)] at hff
    exact hff
  obtain ⟨hfree, hnu, hlo, hhi, _⟩ := findFreePortAux_some osFree used _ _ _ hff'
  have hp : 0 < p := by omega
  subst hc
  subst hf1
  exact ⟨rfl, rfl, ensure_reuse_template dir fs.backup osFree used p hp hfree hnu⟩

open Caddy in
/-- C9 witness:: every port OS-free, nothing claimed — the first call
creates the file at port 8080; the second call reuses it. -/
theorem C9_witness :
    ((⟨none, none⟩ : FS).caddyfile = none) ∧
    EnsureCaddyfile "d" ⟨none, none⟩ (fun _ => true) (some []) 0 =
      .ok (⟨"d/Caddyfile", 8080, true, ""⟩, ⟨some (caddyTemplate 8080), none⟩) ∧
    (Config.mk "d/Caddyfile" 8080 true "").IsNew = true ∧
    (FS.mk (some (caddyTemplate 8080)) none).caddyfile =
      some (caddyTemplate (Config.mk "d/Caddyfile" 8080 true "").Port) ∧
    EnsureCaddyfile "d" ⟨some (caddyTemplate 8080), none⟩ (fun _ => true) (some []) 0 =
      .ok (⟨"d/Caddyfile", (Config.mk "d/Caddyfile" 8080 true "").Port, false, ""⟩,
        ⟨some (caddyTemplate 8080), none⟩) :=
  ⟨rfl, rfl,
    C9_idempotent_reuse "d" ⟨none, none⟩ (fun _ => true) []
      (Config.mk "d/Caddyfile" 8080 true "") (FS.mk (some (caddyTemplate 8080)) none)
      rfl rfl⟩
